import Mathlib

/-!
Verification of `pdftoast.py` (function `number_and_split_pages` and the
command-line front end `main`).

The geometry engine (lines 103-117 of the source) is a pure computation on
page dimensions and run parameters; Python floats are modelled as exact
rationals.  The page-range machinery (`main` lines 259-267 and
`number_and_split_pages` lines 96-102) works on strings, modelled as
`List Char`; Python library primitives (`str.split`, `str.isdigit`,
`int(...)`, `str(...)`, `range`) are modelled by explicit executable
functions below.  The pypdf page-list lookup and the Ghostscript flattening
step are external collaborators; they are modelled where a claim needs them,
with a doc comment naming the source of the model.
-/

/-- Run parameters and the shared page bounding box, as read at the start of
`number_and_split_pages`: `page_width = bb[2]`, `page_height = bb[3]`,
and the command-line parameters `ar` (aspect ratio), `cl` (left crop),
`mo` (minimum overlap). -/
structure PageGeom where
  page_width : ℚ
  page_height : ℚ
  ar : ℚ
  cl : ℚ
  mo : ℚ
deriving DecidableEq

/-- Source line 106: `half_height = bb[3] / 2`. -/
def half_height (g : PageGeom) : ℚ := g.page_height / 2

/-- Source line 109: `cropped_width = page_width - crop_left`. -/
def cropped_width (g : PageGeom) : ℚ := g.page_width - g.cl

/-- Source line 113: `crop_tb = half_height + half_overlap - (cropped_width / aspect_ratio)`
with the initial `half_overlap = mo / 2` of line 110. -/
def crop_tb_naive (g : PageGeom) : ℚ :=
  half_height g + g.mo / 2 - cropped_width g / g.ar

/-- Source lines 110 and 115-116: `half_overlap = mo / 2`, then
`if crop_tb < 0: half_overlap = half_overlap - crop_tb`.  This is the value
the variable `half_overlap` holds after line 117. -/
def half_overlap (g : PageGeom) : ℚ :=
  if crop_tb_naive g < 0 then g.mo / 2 - crop_tb_naive g else g.mo / 2

/-- Source lines 113-117: the value of the variable `crop_tb` after the
`if crop_tb < 0: ... crop_tb = 0` adjustment. -/
def crop_tb (g : PageGeom) : ℚ :=
  if crop_tb_naive g < 0 then 0 else crop_tb_naive g

/-- A PDF rectangle `[x0, y0, x1, y1]` in page coordinates. -/
structure Rect where
  x0 : ℚ
  y0 : ℚ
  x1 : ℚ
  y1 : ℚ
deriving DecidableEq

/-- Source lines 190-193: the crop box assigned to the top half page,
`[crop_left, half_height - half_overlap, page_width, page_height - crop_tb]`. -/
def topCropBox (g : PageGeom) : Rect :=
  ⟨g.cl, half_height g - half_overlap g, g.page_width, g.page_height - crop_tb g⟩

/-- Source lines 195-198: the crop box assigned to the bottom half page,
`[crop_left, crop_tb, page_width, half_height + half_overlap]`. -/
def bottomCropBox (g : PageGeom) : Rect :=
  ⟨g.cl, crop_tb g, g.page_width, half_height g + half_overlap g⟩

/-- Which half of a source page an output page shows. -/
inductive Half where
  | top : Half
  | bottom : Half
deriving DecidableEq

/-- The crop box installed on an output page of the given half-kind. -/
def cropBoxOf (g : PageGeom) : Half → Rect
  | Half.top => topCropBox g
  | Half.bottom => bottomCropBox g

/-- C1: For every page width, aspect ratio, left-crop and minimum overlap
(with positive width and aspect ratio), the derived geometry satisfies
`half_overlap ≥ mo/2` and `crop_tb ≥ 0`; and whenever the naive value
`half_height + mo/2 - (page_width - cl)/ar` is negative, `half_overlap` is
strictly greater than `mo/2` and `crop_tb` equals exactly 0. -/
theorem c1_geometry_invariant (g : PageGeom)
    (hw : 0 < g.page_width) (ha : 0 < g.ar) :
    (g.mo / 2 ≤ half_overlap g ∧ 0 ≤ crop_tb g) ∧
      (crop_tb_naive g < 0 → g.mo / 2 < half_overlap g ∧ crop_tb g = 0) := by
  unfold half_overlap crop_tb
  by_cases h : crop_tb_naive g < 0
  · rw [if_pos h, if_pos h]
    exact ⟨⟨by linarith, le_refl 0⟩, fun _ => ⟨by linarith, rfl⟩⟩
  · rw [if_neg h, if_neg h]
    exact ⟨⟨le_refl _, not_lt.mp h⟩, fun hc => absurd hc h⟩

theorem c1_geometry_invariant_witness :
    (0 < (612 : ℚ) ∧ 0 < (134 / 100 : ℚ)) ∧
      ((40 : ℚ) / 2 ≤ half_overlap ⟨612, 792, 134 / 100, 35, 40⟩ ∧
        0 ≤ crop_tb ⟨612, 792, 134 / 100, 35, 40⟩) ∧
      (crop_tb_naive ⟨612, 792, 134 / 100, 35, 40⟩ < 0 →
        (40 : ℚ) / 2 < half_overlap ⟨612, 792, 134 / 100, 35, 40⟩ ∧
          crop_tb ⟨612, 792, 134 / 100, 35, 40⟩ = 0) :=
  ⟨⟨by norm_num, by norm_num⟩,
    c1_geometry_invariant ⟨612, 792, 134 / 100, 35, 40⟩ (by norm_num) (by norm_num)⟩

/-- C2: For every page and parameters, the top-half output crop box equals
`[cl, half_height - half_overlap, page_width, page_height - crop_tb]` and the
bottom-half output crop box equals
`[cl, crop_tb, page_width, half_height + half_overlap]`, where the
`half_overlap` and `crop_tb` used are the derived (post-adjustment) geometry
of the run. -/
theorem c2_crop_boxes (g : PageGeom) :
    cropBoxOf g Half.top =
        ⟨g.cl, g.page_height / 2 - half_overlap g, g.page_width,
          g.page_height - crop_tb g⟩ ∧
      cropBoxOf g Half.bottom =
        ⟨g.cl, crop_tb g, g.page_width, g.page_height / 2 + half_overlap g⟩ :=
  ⟨rfl, rfl⟩

/-- C3 fails as stated: at page 612x792 with aspect ratio 2, left crop 35 and
minimum overlap 40, the derived `crop_tb` is 127.5 and the two crop-box
heights sum, minus twice the effective half overlap, to
`page_height - 2 * crop_tb = 537`, not `page_height - crop_tb = 664.5`. -/
theorem c3_counterexample :
    ((topCropBox ⟨612, 792, 2, 35, 40⟩).y1 - (topCropBox ⟨612, 792, 2, 35, 40⟩).y0) +
        ((bottomCropBox ⟨612, 792, 2, 35, 40⟩).y1 -
          (bottomCropBox ⟨612, 792, 2, 35, 40⟩).y0) -
        2 * half_overlap ⟨612, 792, 2, 35, 40⟩ ≠
      (792 : ℚ) - crop_tb ⟨612, 792, 2, 35, 40⟩ := by
  norm_num [topCropBox, bottomCropBox, half_overlap, crop_tb, crop_tb_naive,
    half_height, cropped_width]

/-- C3 (amended): the crop-box heights sum minus `2 * half_overlap` equals
`page_height - 2 * crop_tb` (not `page_height - crop_tb`); and when the
derived geometry is non-degenerate (`0 ≤ half_overlap`,
`crop_tb ≤ half_height - half_overlap`, and
`half_height + half_overlap ≤ page_height - crop_tb`), the two crop boxes
cover the vertical interval `[crop_tb, page_height - crop_tb]` with overlap
region exactly `[half_height - half_overlap, half_height + half_overlap]`. -/
theorem c3_coverage (g : PageGeom)
    (h1 : 0 ≤ half_overlap g)
    (h2 : crop_tb g ≤ half_height g - half_overlap g)
    (h3 : half_height g + half_overlap g ≤ g.page_height - crop_tb g) :
    ((topCropBox g).y1 - (topCropBox g).y0) +
        ((bottomCropBox g).y1 - (bottomCropBox g).y0) - 2 * half_overlap g =
      g.page_height - 2 * crop_tb g ∧
    Set.Icc (bottomCropBox g).y0 (bottomCropBox g).y1 ∪
        Set.Icc (topCropBox g).y0 (topCropBox g).y1 =
      Set.Icc (crop_tb g) (g.page_height - crop_tb g) ∧
    Set.Icc (bottomCropBox g).y0 (bottomCropBox g).y1 ∩
        Set.Icc (topCropBox g).y0 (topCropBox g).y1 =
      Set.Icc (half_height g - half_overlap g) (half_height g + half_overlap g) := by
  simp only [topCropBox, bottomCropBox]
  refine ⟨by ring, ?_, ?_⟩
  · ext x
    simp only [Set.mem_union, Set.mem_Icc]
    constructor
    · rintro (⟨ha, hb⟩ | ⟨ha, hb⟩) <;> exact ⟨by linarith, by linarith⟩
    · rintro ⟨ha, hb⟩
      by_cases hx : x ≤ half_height g + half_overlap g
      · exact Or.inl ⟨ha, hx⟩
      · exact Or.inr ⟨by linarith, hb⟩
  · rw [Set.Icc_inter_Icc, sup_eq_right.mpr h2, inf_eq_left.mpr h3]

theorem c3_coverage_witness :
    (0 ≤ half_overlap ⟨612, 792, 134 / 100, 35, 40⟩ ∧
      crop_tb ⟨612, 792, 134 / 100, 35, 40⟩ ≤
        half_height ⟨612, 792, 134 / 100, 35, 40⟩ -
          half_overlap ⟨612, 792, 134 / 100, 35, 40⟩ ∧
      half_height ⟨612, 792, 134 / 100, 35, 40⟩ +
          half_overlap ⟨612, 792, 134 / 100, 35, 40⟩ ≤
        (792 : ℚ) - crop_tb ⟨612, 792, 134 / 100, 35, 40⟩) ∧
    ((topCropBox ⟨612, 792, 134 / 100, 35, 40⟩).y1 -
          (topCropBox ⟨612, 792, 134 / 100, 35, 40⟩).y0) +
        ((bottomCropBox ⟨612, 792, 134 / 100, 35, 40⟩).y1 -
          (bottomCropBox ⟨612, 792, 134 / 100, 35, 40⟩).y0) -
        2 * half_overlap ⟨612, 792, 134 / 100, 35, 40⟩ =
      (792 : ℚ) - 2 * crop_tb ⟨612, 792, 134 / 100, 35, 40⟩ :=
  ⟨⟨by norm_num [half_overlap, crop_tb, crop_tb_naive, half_height, cropped_width],
    by norm_num [half_overlap, crop_tb, crop_tb_naive, half_height, cropped_width],
    by norm_num [half_overlap, crop_tb, crop_tb_naive, half_height, cropped_width]⟩,
    (c3_coverage ⟨612, 792, 134 / 100, 35, 40⟩
      (by norm_num [half_overlap, crop_tb, crop_tb_naive, half_height, cropped_width])
      (by norm_num [half_overlap, crop_tb, crop_tb_naive, half_height, cropped_width])
      (by norm_num [half_overlap, crop_tb, crop_tb_naive, half_height,
        cropped_width])).1⟩

/-- Modelled from Python's `str.split(sep)` with a one-character separator,
as used at source line 259 (`args.pagespec.split("-")`): splits at every
occurrence of `c`; the empty string yields one empty part. -/
def pySplit (c : Char) : List Char → List (List Char)
  | [] => [[]]
  | x :: xs =>
    if x = c then [] :: pySplit c xs
    else
      match pySplit c xs with
      | [] => [[x]]
      | h :: t => (x :: h) :: t

/-- Modelled from Python's `str.isdigit` (source line 260) on ASCII text:
true exactly when the string is nonempty and all characters are digits. -/
def pyIsDigit (s : List Char) : Bool :=
  !s.isEmpty && s.all Char.isDigit

/-- Leading and trailing whitespace removal, as Python's `int` performs. -/
def stripWs (s : List Char) : List Char :=
  ((s.dropWhile Char.isWhitespace).reverse.dropWhile Char.isWhitespace).reverse

/-- The value of a string of decimal digits, most significant first. -/
def digitsToNat (s : List Char) : ℕ :=
  s.foldl (fun acc c => 10 * acc + (c.toNat - 48)) 0

/-- Modelled from Python's `int(str)` constructor (source lines 98 and 101)
on the inputs reachable here, which are hyphen-free parts of a pagespec:
surrounding whitespace is stripped, one optional sign is allowed, and the
rest must be a nonempty run of decimal digits; any other string raises
`ValueError`, modelled as `none`.  (Python additionally accepts underscore
digit grouping and non-ASCII digits; those forms are not modelled.) -/
def pyInt (s : List Char) : Option ℤ :=
  match stripWs s with
  | '+' :: rest =>
    if !rest.isEmpty && rest.all Char.isDigit then some (digitsToNat rest) else none
  | '-' :: rest =>
    if !rest.isEmpty && rest.all Char.isDigit then some (-(digitsToNat rest : ℤ))
    else none
  | t => if !t.isEmpty && t.all Char.isDigit then some (digitsToNat t) else none

/-- Decimal digits of `n`, most significant first, accumulator style; `fuel`
bounds the recursion and `natRepr` supplies `n + 1`, which always suffices. -/
def natReprAux : ℕ → ℕ → List Char → List Char
  | 0, _, acc => acc
  | fuel + 1, n, acc =>
    if n < 10 then Char.ofNat (48 + n) :: acc
    else natReprAux fuel (n / 10) (Char.ofNat (48 + n % 10) :: acc)

/-- Modelled from Python's `str(n)` for a natural number: its decimal digits. -/
def natRepr (n : ℕ) : List Char :=
  natReprAux (n + 1) n []

/-- Modelled from Python's `str(n)` for an integer (source line 120 applies it
to `1 + pn`, which can be 0 when `pn = -1`). -/
def pyStr (n : ℤ) : List Char :=
  if n < 0 then '-' :: natRepr n.natAbs else natRepr n.toNat

/-- Source lines 259-267 of `main`: split the pagespec on hyphens, reject a
single all-digit part (the ambiguous bare-number form) and any split that
does not have exactly two parts, both via a printed message and
`os._exit(1)`; a usage-error exit is modelled as `none`. -/
def checkPagespec (spec : List Char) : Option (List (List Char)) :=
  let parts := pySplit '-' spec
  if parts.length == 1 && pyIsDigit parts.headI then none
  else if parts.length != 2 then none
  else some parts

/-- Source lines 96-101 of `number_and_split_pages`: an empty first part
becomes `"1"`, an empty second part becomes `str(number_pages)` (and
`int(str(N)) = N`); then `int` conversion, with the start decremented to a
zero-based index.  An unhandled `ValueError` from `int` aborts the run,
modelled as `none`. -/
def resolveParts (p0 p1 : List Char) (N : ℕ) : Option (ℤ × ℤ) :=
  match pyInt (if p0.isEmpty then ['1'] else p0) with
  | none => none
  | some a =>
    match if p1.isEmpty then some (N : ℤ) else pyInt p1 with
    | none => none
    | some b => some (a - 1, b)

/-- Number of elements of Python's `range(s, e)` with step 1. -/
def rangeLen (s e : ℤ) : ℕ :=
  (e - s).toNat

/-- The elements of Python's `range(s, e)` in order: `range(s, e)[i] = s + i`
(source line 119, `pn = pagerange[i]`). -/
def pageIndices (s e : ℤ) : List ℤ :=
  (List.range (rangeLen s e)).map (fun i : ℕ => s + (i : ℤ))

/-- Modelled from pypdf's page-list lookup `reader.pages[idx]`
(`_VirtualList.__getitem__`, pypdf 5.1.0, the version the source says it was
tested with): one negative index wraps from the end, any index still outside
`[0, N)` raises `IndexError`, modelled as `none`. -/
def getPage (N : ℕ) (idx : ℤ) : Option ℕ :=
  let j := if idx < 0 then idx + N else idx
  if 0 ≤ j ∧ j < N then some j.toNat else none

/-- Source lines 118-151: the annotation loop touches `pages[pn]` for every
`pn` in the selected range; an `IndexError` aborts the whole run before any
file is written, modelled as `none` for the whole list. -/
def annotateAll (N : ℕ) : List ℤ → Option (List ℕ)
  | [] => some []
  | pn :: rest =>
    match getPage N pn, annotateAll N rest with
    | some p, some ps => some (p :: ps)
    | _, _ => none

/-- Modelled from the spec: the external Ghostscript flattening step
(source lines 165-179) rasterises the attached marks into page content and
preserves the number and order of pages. -/
def flattenPages (pages : List ℕ) : List ℕ :=
  pages

/-- Source lines 187-199: for each page index `i` of the flattened document,
append the top half page and then the bottom half page to the output. -/
def splitPages : ℕ → List (ℕ × Half)
  | 0 => []
  | k + 1 => splitPages k ++ [(k, Half.top), (k, Half.bottom)]

/-- Source line 120: `pagenumber_text = " " + str(int(1 + pn)) + "/" + str(number_pages)`. -/
def pagenumberText (pn : ℤ) (N : ℕ) : List Char :=
  ' ' :: (pyStr (1 + pn) ++ '/' :: natRepr N)

/-- The text of both page-number labels attached to the `i`-th page of the
selected range (source lines 119-120 with `pn = pagerange[i] = start + i`). -/
def labelTextAt (start : ℤ) (i : ℕ) (N : ℕ) : List Char :=
  pagenumberText (start + i) N

/-- The whole observable pipeline on a document of `N` pages: pagespec
validation (`main`), range resolution, the annotation pass, flattening, and
the splitting pass; `none` is an aborted run with no output file, and a
`some` result lists the output pages as (selected-range position, half). -/
def pdftoast (spec : List Char) (N : ℕ) : Option (List (ℕ × Half)) :=
  match checkPagespec spec with
  | some [p0, p1] =>
    match resolveParts p0 p1 N with
    | some se =>
      match annotateAll N (pageIndices se.1 se.2) with
      | some ps => some (splitPages (flattenPages ps).length)
      | none => none
    | none => none
  | _ => none

theorem pySplit_ne_nil (c : Char) (s : List Char) : pySplit c s ≠ [] := by
  induction s with
  | nil => simp [pySplit]
  | cons x xs ih =>
    by_cases h : x = c
    · simp [pySplit, h]
    · simp only [pySplit, if_neg h]
      cases hs : pySplit c xs with
      | nil => exact absurd hs ih
      | cons a t => simp

theorem pySplit_length (c : Char) (s : List Char) :
    (pySplit c s).length = s.count c + 1 := by
  induction s with
  | nil => simp [pySplit]
  | cons x xs ih =>
    by_cases h : x = c
    · subst h
      simp [pySplit, List.count_cons, ih]
    · simp only [pySplit, if_neg h]
      cases hs : pySplit c xs with
      | nil => exact absurd hs (pySplit_ne_nil c xs)
      | cons a t =>
        rw [hs] at ih
        simp only [List.length_cons] at ih ⊢
        rw [List.count_cons]
        simpa [h] using ih

theorem pySplit_of_not_mem (c : Char) (s : List Char) (h : c ∉ s) :
    pySplit c s = [s] := by
  induction s with
  | nil => rfl
  | cons x xs ih =>
    have hx : x ≠ c := fun hxc => h (hxc ▸ List.mem_cons_self x xs)
    have hxs : c ∉ xs := fun hm => h (List.mem_cons_of_mem x hm)
    simp only [pySplit, if_neg hx, ih hxs]

theorem pySplit_append (c : Char) (s₁ s₂ : List Char) (h : c ∉ s₁) :
    pySplit c (s₁ ++ c :: s₂) = s₁ :: pySplit c s₂ := by
  induction s₁ with
  | nil => simp [pySplit]
  | cons x t ih =>
    have hx : x ≠ c := fun hxc => h (hxc ▸ List.mem_cons_self x t)
    have ht : c ∉ t := fun hm => h (List.mem_cons_of_mem x hm)
    simp only [List.cons_append, pySplit, if_neg hx, List.append_eq]
    rw [ih ht]

theorem pyInt_nil : pyInt [] = none := rfl

theorem toNat_ofNat_digit (d : ℕ) (h : d < 10) :
    (Char.ofNat (48 + d)).toNat = 48 + d := by
  interval_cases d <;> decide

theorem isDigit_ofNat_digit (d : ℕ) (h : d < 10) :
    (Char.ofNat (48 + d)).isDigit = true := by
  interval_cases d <;> decide

theorem natReprAux_append (fuel : ℕ) : ∀ (n : ℕ) (acc : List Char), n ≤ fuel →
    natReprAux fuel n acc = natReprAux fuel n [] ++ acc := by
  induction fuel with
  | zero => intro n acc _; rfl
  | succ fuel ih =>
    intro n acc hn
    by_cases h : n < 10
    · simp [natReprAux, if_pos h]
    · have hlt : n / 10 < n := Nat.div_lt_self (by omega) (by omega)
      have hdiv : n / 10 ≤ fuel := by omega
      simp only [natReprAux, if_neg h]
      rw [ih (n / 10) _ hdiv, ih (n / 10) [Char.ofNat (48 + n % 10)] hdiv,
        List.append_assoc]
      rfl

theorem digitsToNat_natReprAux (fuel : ℕ) : ∀ n : ℕ, n ≤ fuel →
    digitsToNat (natReprAux fuel n []) = n := by
  induction fuel with
  | zero => intro n hn; interval_cases n; rfl
  | succ fuel ih =>
    intro n hn
    by_cases h : n < 10
    · simp only [natReprAux, if_pos h]
      show 10 * 0 + ((Char.ofNat (48 + n)).toNat - 48) = n
      rw [toNat_ofNat_digit n h]
      omega
    · have hlt : n / 10 < n := Nat.div_lt_self (by omega) (by omega)
      have hdiv : n / 10 ≤ fuel := by omega
      simp only [natReprAux, if_neg h]
      rw [natReprAux_append fuel (n / 10) [Char.ofNat (48 + n % 10)] hdiv]
      unfold digitsToNat
      rw [List.foldl_append]
      have hih := ih (n / 10) hdiv
      unfold digitsToNat at hih
      rw [hih]
      show 10 * (n / 10) + ((Char.ofNat (48 + n % 10)).toNat - 48) = n
      rw [toNat_ofNat_digit (n % 10) (Nat.mod_lt n (by omega))]
      omega

theorem natReprAux_all_digits (fuel : ℕ) : ∀ n : ℕ, n ≤ fuel →
    (natReprAux fuel n []).all Char.isDigit = true := by
  induction fuel with
  | zero => intro n hn; rfl
  | succ fuel ih =>
    intro n hn
    by_cases h : n < 10
    · simp only [natReprAux, if_pos h, List.all_cons, List.all_nil,
        Bool.and_true]
      exact isDigit_ofNat_digit n h
    · have hlt : n / 10 < n := Nat.div_lt_self (by omega) (by omega)
      have hdiv : n / 10 ≤ fuel := by omega
      simp only [natReprAux, if_neg h]
      rw [natReprAux_append fuel (n / 10) [Char.ofNat (48 + n % 10)] hdiv,
        List.all_append]
      simp only [ih (n / 10) hdiv, List.all_cons, List.all_nil, Bool.and_true,
        Bool.true_and]
      exact isDigit_ofNat_digit (n % 10) (Nat.mod_lt n (by omega))

theorem digitsToNat_natRepr (n : ℕ) : digitsToNat (natRepr n) = n :=
  digitsToNat_natReprAux (n + 1) n (by omega)

theorem natRepr_all_digits (n : ℕ) : (natRepr n).all Char.isDigit = true :=
  natReprAux_all_digits (n + 1) n (by omega)

theorem takeWhile_append_not (p : Char → Bool) (c : Char) (hc : p c = false) :
    ∀ (xs ys : List Char), xs.all p = true →
      (xs ++ c :: ys).takeWhile p = xs := by
  intro xs
  induction xs with
  | nil => intro ys _; simp [List.takeWhile, hc]
  | cons x t ih =>
    intro ys hall
    simp only [List.all_cons, Bool.and_eq_true] at hall
    simp [List.takeWhile, hall.1, ih ys hall.2]

theorem annotateAll_none_of_mem (N : ℕ) (pn : ℤ) :
    ∀ l : List ℤ, pn ∈ l → getPage N pn = none → annotateAll N l = none := by
  intro l
  induction l with
  | nil => intro hm; exact absurd hm (List.not_mem_nil pn)
  | cons x rest ih =>
    intro hm hnone
    rcases List.mem_cons.mp hm with hx | hrest
    · subst hx
      simp only [annotateAll, hnone]
    · simp only [annotateAll, ih hrest hnone]
      cases getPage N x <;> rfl

/-- C4: For every document with `N` pages and every page-range spec of the
form `a-b` with `1 ≤ a ≤ b ≤ N`, range resolution yields exactly the
zero-based half-open interval `[a-1, b)` of length `b - a + 1`; an empty
start part resolves to start index 0, an empty end part resolves to end
index `N`, and the default spec `1-` resolves to the full interval
`[0, N)`. -/
theorem c4_range_resolution (sa sb : List Char) (a b N : ℕ)
    (hsa : pyInt sa = some (a : ℤ)) (hsb : pyInt sb = some (b : ℤ))
    (h1 : 1 ≤ a) (hab : a ≤ b) (hbN : b ≤ N) :
    resolveParts sa sb N = some ((a : ℤ) - 1, (b : ℤ)) ∧
      rangeLen ((a : ℤ) - 1) (b : ℤ) = b - a + 1 ∧
      resolveParts [] sb N = some (0, (b : ℤ)) ∧
      resolveParts sa [] N = some ((a : ℤ) - 1, (N : ℤ)) ∧
      pySplit '-' ['1', '-'] = [['1'], []] ∧
      resolveParts ['1'] [] N = some (0, (N : ℤ)) := by
  have hane : sa.isEmpty = false := by
    cases sa with
    | nil => rw [pyInt_nil] at hsa; cases hsa
    | cons x t => rfl
  have hbne : sb.isEmpty = false := by
    cases sb with
    | nil => rw [pyInt_nil] at hsb; cases hsb
    | cons x t => rfl
  have hone : pyInt ['1'] = some 1 := by decide
  refine ⟨?_, ?_, ?_, ?_, by decide, ?_⟩
  · simp [resolveParts, hane, hbne, hsa, hsb]
  · unfold rangeLen; omega
  · simp [resolveParts, hbne, hone, hsb]
  · simp [resolveParts, hane, hsa]
  · simp [resolveParts, hone]

theorem c4_range_resolution_witness :
    (pyInt ['2'] = some ((2 : ℕ) : ℤ) ∧ pyInt ['5'] = some ((5 : ℕ) : ℤ)) ∧
      resolveParts ['2'] ['5'] 7 = some (((2 : ℕ) : ℤ) - 1, ((5 : ℕ) : ℤ)) ∧
      rangeLen (((2 : ℕ) : ℤ) - 1) ((5 : ℕ) : ℤ) = 5 - 2 + 1 :=
  ⟨⟨by decide, by decide⟩,
    (c4_range_resolution ['2'] ['5'] 2 5 7 (by decide) (by decide) (by decide)
      (by decide) (by decide)).1,
    (c4_range_resolution ['2'] ['5'] 2 5 7 (by decide) (by decide) (by decide)
      (by decide) (by decide)).2.1⟩

/-- C7: For every pagespec string consisting only of decimal digits (a bare
integer with no hyphen), the program reports a usage error and exits
non-zero without producing any output file; it is never silently
interpreted as a range. -/
theorem c7_bare_number_rejected (s : List Char) (N : ℕ)
    (hne : s ≠ []) (hdig : s.all Char.isDigit = true) :
    checkPagespec s = none ∧ pdftoast s N = none := by
  have hnm : '-' ∉ s := by
    intro hm
    have hd := List.all_eq_true.mp hdig '-' hm
    simp at hd
  have hsplit : pySplit '-' s = [s] := pySplit_of_not_mem '-' s hnm
  obtain ⟨x, t, rfl⟩ : ∃ x t, s = x :: t := by
    cases s with
    | nil => exact absurd rfl hne
    | cons x t => exact ⟨x, t, rfl⟩
  have hcheck : checkPagespec (x :: t) = none := by
    simp [checkPagespec, hsplit, pyIsDigit, hdig]
  refine ⟨hcheck, ?_⟩
  unfold pdftoast
  rw [hcheck]

theorem c7_bare_number_rejected_witness :
    (['4'] ≠ [] ∧ List.all ['4'] Char.isDigit = true) ∧
      checkPagespec ['4'] = none ∧ pdftoast ['4'] 7 = none :=
  ⟨⟨by decide, by decide⟩, c7_bare_number_rejected ['4'] 7 (by decide) (by decide)⟩

/-- C9 fails as stated: the pagespec `+5-7` contains exactly one hyphen and
its first part `+5` is nonempty and not a string of decimal digits, yet
range resolution does not fail: Python's `int("+5")` accepts the sign and
returns 5, so the range resolves to `[4, 7)`. -/
theorem c9_counterexample :
    (List.count '-' ['+', '5', '-', '7'] = 1 ∧ pyIsDigit ['+', '5'] = false) ∧
      checkPagespec ['+', '5', '-', '7'] = some [['+', '5'], ['7']] ∧
      resolveParts ['+', '5'] ['7'] 9 = some (4, 7) :=
  ⟨⟨by decide, by decide⟩, by decide, by decide⟩

/-- C9 (amended): for every pagespec string containing exactly one hyphen,
the usage-error validation accepts the spec (no usage error is reported);
and whenever a nonempty part is not parseable by Python's `int` (modelled by
`pyInt` returning `none`), range resolution fails with an unhandled
integer-conversion exception rather than the single-line usage-error
report. -/
theorem c9_one_hyphen_validation (s : List Char) (N : ℕ)
    (hcount : List.count '-' s = 1) :
    checkPagespec s = some (pySplit '-' s) ∧
      ∀ p0 p1 : List Char, pySplit '-' s = [p0, p1] →
        ((p0 ≠ [] ∧ pyInt p0 = none) ∨ (p1 ≠ [] ∧ pyInt p1 = none)) →
        resolveParts p0 p1 N = none := by
  have hlen : (pySplit '-' s).length = 2 := by
    rw [pySplit_length]
    omega
  constructor
  · simp [checkPagespec, hlen]
  · rintro p0 p1 hps (⟨hne, hnone⟩ | ⟨hne, hnone⟩)
    · simp [resolveParts, hne, hnone]
    · cases hq : pyInt (if p0.isEmpty then ['1'] else p0) with
      | none =>
        simp at hq
        simp [resolveParts, hq]
      | some a =>
        simp at hq
        simp [resolveParts, hq, hne, hnone]

theorem c9_one_hyphen_validation_witness :
    List.count '-' ['1', '-', 'x'] = 1 ∧
      checkPagespec ['1', '-', 'x'] = some [['1'], ['x']] ∧
      resolveParts ['1'] ['x'] 5 = none :=
  ⟨by decide,
    (c9_one_hyphen_validation ['1', '-', 'x'] 5 (by decide)).1,
    (c9_one_hyphen_validation ['1', '-', 'x'] 5 (by decide)).2 ['1'] ['x']
      (by decide) (Or.inr ⟨by decide, by decide⟩)⟩

/-- C10: For every pagespec `a-b` with `1 ≤ b < a ≤ N` (start after end),
the resolved range is empty, no usage error is reported, the pipeline runs
to completion, and the final output document contains exactly 0 pages. -/
theorem c10_empty_range (sa sb : List Char) (a b N : ℕ)
    (hsa : pyInt sa = some (a : ℤ)) (hsb : pyInt sb = some (b : ℤ))
    (hma : '-' ∉ sa) (hmb : '-' ∉ sb)
    (h1 : 1 ≤ b) (hba : b < a) (haN : a ≤ N) :
    checkPagespec (sa ++ '-' :: sb) = some [sa, sb] ∧
      resolveParts sa sb N = some ((a : ℤ) - 1, (b : ℤ)) ∧
      pdftoast (sa ++ '-' :: sb) N = some [] := by
  have hane : sa.isEmpty = false := by
    cases sa with
    | nil => rw [pyInt_nil] at hsa; cases hsa
    | cons x t => rfl
  have hbne : sb.isEmpty = false := by
    cases sb with
    | nil => rw [pyInt_nil] at hsb; cases hsb
    | cons x t => rfl
  have hsplit : pySplit '-' (sa ++ '-' :: sb) = [sa, sb] := by
    rw [pySplit_append '-' sa sb hma, pySplit_of_not_mem '-' sb hmb]
  have hcheck : checkPagespec (sa ++ '-' :: sb) = some [sa, sb] := by
    simp [checkPagespec, hsplit]
  have hres : resolveParts sa sb N = some ((a : ℤ) - 1, (b : ℤ)) := by
    simp [resolveParts, hane, hbne, hsa, hsb]
  have hlen : rangeLen ((a : ℤ) - 1) (b : ℤ) = 0 := by
    unfold rangeLen
    omega
  have hpi : pageIndices ((a : ℤ) - 1) (b : ℤ) = [] := by
    unfold pageIndices
    rw [hlen]
    rfl
  refine ⟨hcheck, hres, ?_⟩
  simp [pdftoast, hcheck, hres, hpi, annotateAll, flattenPages, splitPages]

theorem c10_empty_range_witness :
    (pyInt ['5'] = some ((5 : ℕ) : ℤ) ∧ pyInt ['2'] = some ((2 : ℕ) : ℤ) ∧
      (2 : ℕ) < 5 ∧ (5 : ℕ) ≤ 10) ∧
      pdftoast ['5', '-', '2'] 10 = some [] :=
  ⟨⟨by decide, by decide, by decide, by decide⟩,
    (c10_empty_range ['5'] ['2'] 5 2 10 (by decide) (by decide) (by decide)
      (by decide) (by decide) (by decide) (by decide)).2.2⟩

/-- C8 fails as stated: on a 3-page document the pagespec `9-5` resolves to
end index 5 > 3, outside the claimed invariant, yet the run does not abort:
the resolved range `[8, 5)` is empty, no page is ever fetched, every stage
completes, and an output document with 0 pages is written. -/
theorem c8_counterexample :
    resolveParts ['9'] ['5'] 3 = some (8, 5) ∧
      pdftoast ['9', '-', '5'] 3 = some [] :=
  ⟨by decide, by decide⟩

/-- C8 (amended): for every pagespec `a-b` whose resolved range `[a-1, b)`
is nonempty and whose end index `b` exceeds the page count `N`, the run
aborts (an `IndexError` from the page lookup) before producing any output
file.  (An empty resolved range never aborts, and a start index of -1 — from
a spec `0-b` — is wrapped by the page list to the last page rather than
aborting.) -/
theorem c8_out_of_range_abort (sa sb : List Char) (a b : ℤ) (N : ℕ)
    (hsa : pyInt sa = some a) (hsb : pyInt sb = some b)
    (hma : '-' ∉ sa) (hmb : '-' ∉ sb)
    (hne : a - 1 < b) (hbig : (N : ℤ) < b) :
    pdftoast (sa ++ '-' :: sb) N = none := by
  have hane : sa.isEmpty = false := by
    cases sa with
    | nil => rw [pyInt_nil] at hsa; cases hsa
    | cons x t => rfl
  have hbne : sb.isEmpty = false := by
    cases sb with
    | nil => rw [pyInt_nil] at hsb; cases hsb
    | cons x t => rfl
  have hsplit : pySplit '-' (sa ++ '-' :: sb) = [sa, sb] := by
    rw [pySplit_append '-' sa sb hma, pySplit_of_not_mem '-' sb hmb]
  have hcheck : checkPagespec (sa ++ '-' :: sb) = some [sa, sb] := by
    simp [checkPagespec, hsplit]
  have hres : resolveParts sa sb N = some (a - 1, b) := by
    simp [resolveParts, hane, hbne, hsa, hsb]
  have hmem : b - 1 ∈ pageIndices (a - 1) b := by
    simp only [pageIndices, rangeLen, List.mem_map, List.mem_range]
    exact ⟨(b - 1 - (a - 1)).toNat, by omega, by omega⟩
  have hnone : getPage N (b - 1) = none := by
    simp only [getPage]
    rw [if_neg (by omega : ¬(b - 1 : ℤ) < 0)]
    exact if_neg (by omega)
  have habort : annotateAll N (pageIndices (a - 1) b) = none :=
    annotateAll_none_of_mem N (b - 1) (pageIndices (a - 1) b) hmem hnone
  simp [pdftoast, hcheck, hres, habort]

theorem c8_out_of_range_abort_witness :
    (pyInt ['9'] = some (9 : ℤ) ∧ pyInt ['1', '2'] = some (12 : ℤ) ∧
      (9 : ℤ) - 1 < 12 ∧ ((3 : ℕ) : ℤ) < 12) ∧
      pdftoast ['9', '-', '1', '2'] 3 = none :=
  ⟨⟨by decide, by decide, by decide, by decide⟩,
    c8_out_of_range_abort ['9'] ['1', '2'] 9 12 3 (by decide) (by decide)
      (by decide) (by decide) (by decide) (by decide)⟩

/-- C5: For every selected page range of length `k`, the final output
document contains exactly `2 * k` pages, and the `j`-th selected page
contributes exactly the two consecutive output pages `2j` (its top half) and
`2j + 1` (its bottom half), in the original page order of the selection. -/
theorem c5_output_page_order (k : ℕ) :
    (splitPages k).length = 2 * k ∧
      ∀ j : ℕ, j < k →
        (splitPages k).get? (2 * j) = some (j, Half.top) ∧
          (splitPages k).get? (2 * j + 1) = some (j, Half.bottom) := by
  induction k with
  | zero => exact ⟨rfl, fun j hj => absurd hj (Nat.not_lt_zero j)⟩
  | succ k ih =>
    constructor
    · show (splitPages k ++ [(k, Half.top), (k, Half.bottom)]).length = 2 * (k + 1)
      rw [List.length_append, ih.1]
      show 2 * k + 2 = 2 * (k + 1)
      omega
    · intro j hj
      rcases Nat.lt_succ_iff_lt_or_eq.mp hj with h | h
      · have h2 : 2 * j < (splitPages k).length := by
          rw [ih.1]
          omega
        have h3 : 2 * j + 1 < (splitPages k).length := by
          rw [ih.1]
          omega
        constructor
        · show (splitPages k ++ [(k, Half.top), (k, Half.bottom)]).get? (2 * j) = _
          rw [List.get?_append h2]
          exact (ih.2 j h).1
        · show (splitPages k ++ [(k, Half.top), (k, Half.bottom)]).get? (2 * j + 1) = _
          rw [List.get?_append h3]
          exact (ih.2 j h).2
      · subst h
        constructor
        · show (splitPages j ++ [(j, Half.top), (j, Half.bottom)]).get? (2 * j) = _
          rw [List.get?_append_right (le_of_eq ih.1), ih.1, Nat.sub_self]
          rfl
        · show (splitPages j ++ [(j, Half.top), (j, Half.bottom)]).get? (2 * j + 1) = _
          rw [List.get?_append_right (by rw [ih.1]; omega), ih.1]
          have hone : 2 * j + 1 - 2 * j = 1 := by omega
          rw [hone]
          rfl

theorem c5_output_page_order_witness :
    (splitPages 2).length = 2 * 2 ∧
      (splitPages 2).get? (2 * 1) = some (1, Half.top) ∧
      (splitPages 2).get? (2 * 1 + 1) = some (1, Half.bottom) :=
  ⟨(c5_output_page_order 2).1,
    ((c5_output_page_order 2).2 1 (by decide)).1,
    ((c5_output_page_order 2).2 1 (by decide)).2⟩

theorem pyStr_natCast (n : ℕ) : pyStr (n : ℤ) = natRepr n := by
  unfold pyStr
  rw [if_neg (by omega : ¬((n : ℤ) < 0))]
  have h : ((n : ℤ)).toNat = n := by omega
  rw [h]

/-- C6: For every selected page, the page-number label text attached during
annotation is `" p/N"` where `p` is that page's one-based absolute position
in the original input document (for a range starting at page `a`, the `i`-th
selected page is labelled `a + i`, not `1 + i`) and `N` is the original
document's total page count; in particular, for a range starting at page
`a > 1`, the first annotated page is labelled with `a`, not 1. -/
theorem c6_absolute_page_labels (a i N : ℕ) (ha : 1 ≤ a) :
    labelTextAt ((a : ℤ) - 1) i N = ' ' :: (natRepr (a + i) ++ '/' :: natRepr N) ∧
      digitsToNat (((labelTextAt ((a : ℤ) - 1) i N).drop 1).takeWhile Char.isDigit) =
        a + i ∧
      (1 < a →
        digitsToNat (((labelTextAt ((a : ℤ) - 1) 0 N).drop 1).takeWhile Char.isDigit) =
            a ∧ a ≠ 1) := by
  have key : ∀ j : ℕ,
      labelTextAt ((a : ℤ) - 1) j N = ' ' :: (natRepr (a + j) ++ '/' :: natRepr N) := by
    intro j
    unfold labelTextAt pagenumberText
    have h : 1 + ((a : ℤ) - 1 + j) = ((a + j : ℕ) : ℤ) := by push_cast; ring
    rw [h, pyStr_natCast]
  have dec : ∀ j : ℕ,
      digitsToNat (((labelTextAt ((a : ℤ) - 1) j N).drop 1).takeWhile Char.isDigit) =
        a + j := by
    intro j
    rw [key j]
    show digitsToNat ((natRepr (a + j) ++ '/' :: natRepr N).takeWhile Char.isDigit) =
      a + j
    rw [takeWhile_append_not Char.isDigit '/' (by decide) _ _ (natRepr_all_digits (a + j))]
    exact digitsToNat_natRepr (a + j)
  refine ⟨key i, dec i, fun h2 => ⟨?_, by omega⟩⟩
  have hd := dec 0
  simpa using hd

theorem c6_absolute_page_labels_witness :
    1 ≤ 3 ∧
      labelTextAt ((3 : ℤ) - 1) 0 9 = ' ' :: (natRepr (3 + 0) ++ '/' :: natRepr 9) ∧
      digitsToNat (((labelTextAt ((3 : ℤ) - 1) 0 9).drop 1).takeWhile Char.isDigit) =
        3 + 0 :=
  ⟨by decide, (c6_absolute_page_labels 3 0 9 (by decide)).1,
    (c6_absolute_page_labels 3 0 9 (by decide)).2.1⟩
